import Mathlib

/-!
Verification of the `builder` build-automation engine.

Shallow embedding of `src/builder/project.py`, `src/builder/rule.py` and the
parts of `src/builder/utils.py` they use.  Python strings are modelled as
`List Char`; Python dicts (which preserve insertion order) are modelled as
association lists `List (Str × α)` together with an update operation with
Python `dict.update` semantics.  External effects (the shell invoked by
`subprocess`, the filesystem queried by `os.path`, `glob.glob`, `re.fullmatch`)
are oracle parameters.
-/

namespace Builder

/-- Python strings, modelled as lists of characters. -/
abbrev Str := List Char

/-- Coerce a Lean string literal to the `Str` model. -/
def S (s : String) : Str := s.data

instance {ε α : Type} [DecidableEq ε] [DecidableEq α] : DecidableEq (Except ε α) := fun x y =>
  match x, y with
  | .ok a, .ok b =>
    if h : a = b then isTrue (by rw [h]) else isFalse (fun hc => by cases hc; exact h rfl)
  | .error a, .error b =>
    if h : a = b then isTrue (by rw [h]) else isFalse (fun hc => by cases hc; exact h rfl)
  | .ok _, .error _ => isFalse (fun hc => by cases hc)
  | .error _, .ok _ => isFalse (fun hc => by cases hc)

/-! ## Ordered dictionaries (Python `dict`) as association lists -/

/-- Dictionary lookup: value of the first entry whose key matches
(an association list built by `updateOne` never has duplicate keys). -/
def alookup {α : Type} : List (Str × α) → Str → Option α
  | [], _ => none
  | (k, v) :: rest, key => if k == key then some v else alookup rest key

/-- Python `key in dict`. -/
def containsKey {α : Type} (d : List (Str × α)) (k : Str) : Bool :=
  d.any (fun p => p.1 == k)

/-- Python `d[k] = v`: overwrite in place if the key exists (keeping its
position, as Python dicts do), otherwise append. -/
def updateOne {α : Type} (d : List (Str × α)) (k : Str) (v : α) : List (Str × α) :=
  if containsKey d k then
    d.map (fun p => if p.1 == k then (k, v) else p)
  else
    d ++ [(k, v)]

/-- Python `d.update(e)`: assign every entry of `e` into `d`, in order. -/
def dictUpdate {α : Type} (d e : List (Str × α)) : List (Str × α) :=
  e.foldl (fun acc p => updateOne acc p.1 p.2) d

/-- First-`some` choice on options (used to state lookup priorities). -/
def optOr {α : Type} (a b : Option α) : Option α :=
  match a with
  | some x => some x
  | none => b

/-- The keys of a dictionary are pairwise distinct (true of every real
Python dict). -/
def keysNodup {α : Type} (d : List (Str × α)) : Prop :=
  (d.map Prod.fst).Nodup

instance {α : Type} (d : List (Str × α)) : Decidable (keysNodup d) := by
  unfold keysNodup
  infer_instance

/-! ## Substring machinery (Python `in`, `str.index`, `str.replace`, `str.strip`) -/

/-- Boolean prefix test. -/
def isPrefixB : Str → Str → Bool
  | [], _ => true
  | _ :: _, [] => false
  | a :: as_, b :: bs => a == b && isPrefixB as_ bs

/-- Python `pat in s` (substring containment). -/
def containsSub (pat : Str) : Str → Bool
  | [] => isPrefixB pat []
  | c :: rest => isPrefixB pat (c :: rest) || containsSub pat rest

/-- Index of the first occurrence of `pat` in `s`, if any
(Python `s.index(pat)`, with `none` in place of `ValueError`). -/
def findSub (pat : Str) : Str → Option Nat
  | [] => if isPrefixB pat [] then some 0 else none
  | c :: rest =>
    if isPrefixB pat (c :: rest) then some 0
    else (findSub pat rest).map (· + 1)

/-- Python `s.index(pat, start)`: first occurrence at or after `start`. -/
def indexFrom (pat : Str) (s : Str) (start : Nat) : Option Nat :=
  (findSub pat (s.drop start)).map (· + start)

/-- Python `s.replace(pat, rep)` for a non-empty `pat`: scan left to right,
replacing non-overlapping occurrences (the replacement text is not rescanned).
Every pattern used in the source has the shape `"${" + key + "}"` and is
therefore non-empty.  The `Nat` argument is recursion fuel only: each step
consumes at least one character, so `s.length` fuel (as supplied by
`replaceAll`) always suffices and the `0, s => s` branch is unreachable. -/
def replaceAllF (pat rep : Str) : Nat → Str → Str
  | _, [] => []
  | 0, s => s
  | fuel + 1, c :: rest =>
    if pat ≠ [] ∧ isPrefixB pat (c :: rest) then
      rep ++ replaceAllF pat rep fuel (rest.drop (pat.length - 1))
    else
      c :: replaceAllF pat rep fuel rest

/-- Python `s.replace(pat, rep)` (non-empty `pat`). -/
def replaceAll (pat rep s : Str) : Str := replaceAllF pat rep s.length s

/-- Python `s.strip()` (whitespace trimmed from both ends). -/
def pyStrip (s : Str) : Str :=
  ((s.dropWhile Char.isWhitespace).reverse.dropWhile Char.isWhitespace).reverse

/-! ## Variable resolution (`Project.__resolve_variable_value`, project.py 99-127)

The variable mapping (the result of `self.get_all_vars()`, constant during one
call) is an ordered dictionary `Vars`.  The shell invoked for `$(command)`
spans is an oracle `Str → Option Str` returning the captured stdout, or `none`
when the command exits non-zero (`sp.CalledProcessError`, which the source
turns into a `ValueError`).  Both the outer fixed-point loop and the inner
`while '$(' in value` loop may diverge in the source, so they take fuel; a
result of `none` means the corresponding Python loop did not terminate within
the given fuel. -/

/-- Variable dictionaries. -/
abbrev Vars := List (Str × Str)

/-- The pattern `f'${{{key}}}'`, i.e. `"${" ++ key ++ "}"`. -/
def varPat (key : Str) : Str := '$' :: '{' :: (key ++ ['}'])

/-- The two-character needle `'$('`. -/
def dParen : Str := ['$', '(']

/-- The one-character needle `')'`. -/
def closeParen : Str := [')']

/-- One substitution pass: for every `key, val` of the mapping in dict order,
`if not f'${{{key}}}' in value: continue; value = value.replace(...)`. -/
def substPass (V : Vars) (value : Str) : Str :=
  V.foldl
    (fun v p => if containsSub (varPat p.1) v then replaceAll (varPat p.1) p.2 v else v)
    value

/-- Errors raised by `__resolve_variable_value`: the `ValueError` from
`value.index(')', start_idx)` when no `')'` follows, and the `ValueError`
wrapping a failed `$(command)`. -/
inductive ResolveErr where
  | unclosedParen (value : Str)
  | commandFailed (cmd : Str)
deriving DecidableEq, Repr

/-- The inner loop `while '$(' in value`: find the first `'$('`, find the
first `')'` at or after it, run the command between them through the shell,
splice the stripped output in place of the whole span. -/
def expandCmds (shell : Str → Option Str) (fuel : Nat) (v : Str) :
    Option (Except ResolveErr Str) :=
  match findSub dParen v with
    | none => some (.ok v)
    | some start =>
      match fuel with
      | 0 => none
      | fuel' + 1 =>
        match indexFrom closeParen v start with
        | none => some (.error (.unclosedParen v))
        | some endI =>
          let cmd := (v.drop (start + 2)).take (endI - (start + 2))
          match shell cmd with
          | none => some (.error (.commandFailed cmd))
          | some out =>
            expandCmds shell fuel' (v.take start ++ pyStrip out ++ v.drop (endI + 1))

/-- The outer fixed-point loop `while last_value != value`: one iteration is a
substitution pass followed by full command expansion. -/
def resolveLoop (shell : Str → Option Str) (V : Vars) (iF : Nat)
    (oF : Nat) (last value : Str) : Option (Except ResolveErr Str) :=
  if last == value then some (.ok value)
    else
      match oF with
      | 0 => none
      | oF' + 1 =>
        match expandCmds shell iF (substPass V value) with
        | none => none
        | some (.error e) => some (.error e)
        | some (.ok v2) => resolveLoop shell V iF oF' value v2

/-- `Project.__resolve_variable_value(value)`: the loop starts with
`last_value = ""`. -/
def resolveValue (shell : Str → Option Str) (V : Vars) (oF iF : Nat) (s : Str) :
    Option (Except ResolveErr Str) :=
  resolveLoop shell V iF oF [] s

/-! ## Rules (`src/builder/rule.py`)

The filesystem (`os.path.exists`, `os.path.getmtime`) is an oracle `FS`;
modification times are modelled by integers (only their order is ever used).
The shell spawned by `sp.run(cmd, shell=True, ...)` is an oracle receiving the
current process working directory and the filesystem, returning an exit code
and the updated filesystem; `sp.run` never changes the Python process's own
working directory, and `rule.py` never calls `os.chdir`. -/

/-- Filesystem oracle. -/
structure FS where
  pexists : Str → Bool
  mtime : Str → Int

/-- Shell oracle for rule commands: cwd → command → filesystem →
(exit code, new filesystem). -/
abbrev Shell := Str → Str → FS → Int × FS

/-- Python `max(iterable)`: `none` models the `ValueError` on an empty
iterable. -/
def pyMax : List Int → Option Int
  | [] => none
  | x :: xs => some (xs.foldl max x)

/-- Python `'*' in s or '?' in s or '[' in s` (rule.py `is_pattern`). -/
def is_pattern (s : Str) : Bool :=
  s.any (fun c => c == '*') || s.any (fun c => c == '?') || s.any (fun c => c == '[')

/-- `Rule.__apply_variables`: `value.replace(f"${{{var}}}", str(var_value))`
for every mapping entry in dict order (no containment check here, unlike the
project-level resolver). -/
def applyVariables (varMap : Vars) (value : Str) : Str :=
  varMap.foldl (fun v p => replaceAll (varPat p.1) p.2 v) value

/-- `Rule.__expand_files` with `glob.glob` as an oracle: patterns are replaced
by their matches, literals pass through. -/
def expand_files (globFn : Str → List Str) (items : List Str) : List Str :=
  items.flatMap (fun item => if is_pattern item then globFn item else [item])

/-- A value in a rule's raw config block: a string (file-group name) or a list
of strings. -/
inductive CVal where
  | s (v : Str)
  | l (v : List Str)
deriving DecidableEq

/-- A rule's raw config block (a Python dict). -/
abbrev RuleConfig := List (Str × CVal)

/-- `config.get(key, [])` for the `required-files` / `expected-files` keys,
followed by `if isinstance(x, str): x = files_groups.get(x, [])`. -/
def filesDecl (files_groups : List (Str × List Str)) (config : RuleConfig) (key : Str) :
    List Str :=
  match alookup config key with
  | some (.s g) => (alookup files_groups g).getD []
  | some (.l xs) => xs
  | none => []

/-- `config.get(key, [])` for list-valued keys (`tags`, `commands`). -/
def listDecl (config : RuleConfig) (key : Str) : List Str :=
  match alookup config key with
  | some (.l xs) => xs
  | _ => []

/-- The attributes `Rule.__init__` actually sets (rule.py 13-37): `name`,
`tags`, `required_files`, `expected_files`, `commands` — and nothing else. -/
structure Rule where
  name : Str
  tags : List Str
  required_files : List Str
  expected_files : List Str
  commands : List Str
deriving DecidableEq

/-- `Rule.__init__(name, config, variables, files_groups)`: resolve file-group
indirection, substitute variables, expand patterns; substitute variables into
commands.  No other config key (in particular no `working-directory`) is
read. -/
def mkRule (globFn : Str → List Str) (name : Str) (config : RuleConfig)
    (varMap : Vars) (files_groups : List (Str × List Str)) : Rule :=
  { name := name
    tags := listDecl config (S "tags")
    required_files :=
      expand_files globFn
        ((filesDecl files_groups config (S "required-files")).map (applyVariables varMap))
    expected_files :=
      expand_files globFn
        ((filesDecl files_groups config (S "expected-files")).map (applyVariables varMap))
    commands := (listDecl config (S "commands")).map (applyVariables varMap) }

/-- `Rule.__check_required_files` / `__check_expected_files`: all files of the
list exist (the source collects the missing ones and returns `not missing`). -/
def filesAllExist (fs : FS) (files : List Str) : Bool :=
  files.all fs.pexists

/-- `Rule.__get_last_edited_time_required`:
`max(os.path.getmtime(f) for f in self.required_files if os.path.exists(f))`;
`none` models the `ValueError` raised by `max` on an empty sequence. -/
def lastEdited (fs : FS) (files : List Str) : Option Int :=
  pyMax ((files.filter fs.pexists).map fs.mtime)

/-- `Rule.__must_be_rerun` (rule.py 127-135); `none` propagates the
`ValueError` from an empty `max`. -/
def must_be_rerun (fs : FS) (r : Rule) : Option Bool :=
  if r.expected_files.isEmpty || !(r.expected_files.all fs.pexists) then some true
  else
    match lastEdited fs r.required_files with
    | none => none
    | some lastRequired =>
      match lastEdited fs r.expected_files with
      | none => none
      | some lastExpected => some (decide (lastRequired > lastExpected))

/-- Outcome of `Rule.execute`.  `invoked` records every shell invocation as a
(cwd, command) pair, in order. -/
inductive ExecResult where
  | missingRequired
  | skipped
  | commandFailed (invoked : List (Str × Str)) (cmd : Str)
  | expectedMissing (invoked : List (Str × Str))
  | success (invoked : List (Str × Str))
  | emptyMaxError
deriving DecidableEq

/-- `Rule.__execute_commands` (rule.py 84-94): run each command through the
shell in declared order, in the ambient working directory; the first non-zero
exit aborts the loop (`RuntimeError(f'Command failed: {cmd}')`).  Returns the
invocation trace, the final filesystem, and the failing command if any. -/
def execCommands (shell : Shell) (cwd : Str) (fs : FS) :
    List Str → List (Str × Str) × FS × Option Str
  | [] => ([], fs, none)
  | c :: rest =>
    let r := shell cwd c fs
    if r.1 == 0 then
      let rec_ := execCommands shell cwd r.2 rest
      ((cwd, c) :: rec_.1, rec_.2.1, rec_.2.2)
    else ([(cwd, c)], r.2, some c)

/-- The Run/CheckExpected tail of `Rule.execute` (rule.py 147-151):
`__execute_commands` followed by `__check_expected_files` on the resulting
filesystem. -/
def runPhase (shell : Shell) (cwd : Str) (fs : FS) (r : Rule) : ExecResult × FS × Str :=
  let res := execCommands shell cwd fs r.commands
  match res.2.2 with
  | some c => (.commandFailed res.1 c, res.2.1, cwd)
  | none =>
    if filesAllExist res.2.1 r.expected_files then (.success res.1, res.2.1, cwd)
    else (.expectedMissing res.1, res.2.1, cwd)

/-- `Rule.execute(force)` (rule.py 138-151).  Returns the outcome, the final
filesystem and the final process working directory.  The source never touches
the working directory, so it is threaded through unchanged.  Note
`__must_be_rerun` is only consulted when `force` is unset (`if not force and
not self.__must_be_rerun()`). -/
def Rule.execute (shell : Shell) (cwd : Str) (fs : FS) (r : Rule) (force : Bool) :
    ExecResult × FS × Str :=
  if !(filesAllExist fs r.required_files) then (.missingRequired, fs, cwd)
  else if force then runPhase shell cwd fs r
  else
    match must_be_rerun fs r with
    | none => (.emptyMaxError, fs, cwd)
    | some false => (.skipped, fs, cwd)
    | some true => runPhase shell cwd fs r

/-- The Run phase was reached, i.e. `__execute_commands` was invoked. -/
def reachedRun : ExecResult → Bool
  | .commandFailed _ _ => true
  | .expectedMissing _ => true
  | .success _ => true
  | _ => false

/-! ## Projects (`src/builder/project.py`)

A `Project` owns its variable dict, its rule dict and its import dict
(alias → child project), built at construction (project.py 17-69). -/

/-- The parts of a `Project` the lookup and selection claims depend on. -/
inductive Project where
  | mk (vars : Vars) (rules : List (Str × Rule)) (imports : List (Str × Project))

/-- Accessor for `self.vars`. -/
def Project.vars : Project → Vars
  | .mk v _ _ => v

/-- Accessor for `self.rules`. -/
def Project.rules : Project → List (Str × Rule)
  | .mk _ r _ => r

/-- Accessor for `self.imports`. -/
def Project.imports : Project → List (Str × Project)
  | .mk _ _ i => i

/-- Python `name.split('.', 1)`: the part before the first dot, and the rest
if a dot exists. -/
def splitDot1 (s : Str) : Str × Option Str :=
  match findSub ['.'] s with
  | none => (s, none)
  | some i => (s.take i, some (s.drop (i + 1)))

/-- Lookup errors raised by `Project.get_var` (project.py 210-225). -/
inductive LookupErr where
  | varNotFound
  | importNotFound
deriving DecidableEq

mutual

/-- `Project.get_var(name)` (project.py 210-225): a dot-free name is looked up
in `self.vars`; a dotted name recurses into the import named by the first
segment, raising `KeyError('Import not found')` if there is no such
imported project — even when the whole dotted string is a key of `self.vars`.  The
source's `if import_alias in self.imports: ... self.imports[import_alias]` is
fused into the list walk `gvImports` (which enters the first entry whose key
matches, exactly as the dict indexing does). -/
def Project.get_var : Project → Str → Except LookupErr Str
  | .mk vars _ imports, name =>
    match splitDot1 name with
    | (_, none) =>
      match alookup vars name with
      | some v => .ok v
      | none => .error .varNotFound
    | (alias_, some rest) => gvImports imports alias_ rest

/-- Helper for `Project.get_var`: find the import with the given alias and
recurse into it; no entry means `KeyError('Import not found')`. -/
def gvImports : List (Str × Project) → Str → Str → Except LookupErr Str
  | [], _, _ => .error .importNotFound
  | (k, child) :: tl, alias_, rest =>
    if k == alias_ then Project.get_var child rest else gvImports tl alias_ rest

end

mutual

/-- `Project.get_all_rules` (project.py 240-247): start from a copy of the
local rules and, for each import in dict order, `update` in the child's
transitive rules with keys prefixed `alias ++ "." ++ key`. -/
def Project.get_all_rules : Project → List (Str × Rule)
  | .mk _ rules imports => garImports rules imports

/-- Helper for `Project.get_all_rules`: the `for alias, import_obj in
self.imports.items()` accumulation loop. -/
def garImports (acc : List (Str × Rule)) : List (Str × Project) → List (Str × Rule)
  | [] => acc
  | (alias_, q) :: tl =>
    garImports
      (dictUpdate acc ((Project.get_all_rules q).map (fun kr => (alias_ ++ '.' :: kr.1, kr.2))))
      tl

end

/-- `Project.select_rules(names_patterns, tags)` (project.py 156-165).
`re.fullmatch` is an oracle `matchFn pattern name`. -/
def Project.select_rules (matchFn : Str → Str → Bool) (p : Project)
    (names_patterns tags : List Str) : List (Str × Rule) :=
  p.get_all_rules.filter
    (fun nr =>
      (names_patterns.isEmpty || names_patterns.any (fun pat => matchFn pat nr.1)) &&
      (tags.isEmpty || tags.any (fun tag => nr.2.tags.contains tag)))

/-- `re.fullmatch(pattern, name)` restricted to patterns without regex
metacharacters: such a pattern fully matches exactly the name equal to it. -/
def reFullmatchLit (pattern name : Str) : Bool := pattern == name

/-- Variable merging at `Project.__init__` (project.py 35, 58-60): `self.vars`
starts from the keys flattened out of foreign-manifest imports, then
`update(config.get('vars', {}))`, then `update(variables)` (the built-ins),
then `update(cl_variables)`. -/
def mergedVars (importVars configVars builtins clVars : Vars) : Vars :=
  dictUpdate (dictUpdate (dictUpdate importVars configVars) builtins) clVars

/-! ## Concrete instances used as witnesses and counterexamples -/

/-- A shell oracle that is never consulted successfully. -/
def shellNone : Str → Option Str := fun _ => none

/-- Mapping for the C6 counterexample: the value of `A` contains an unopened
`$(` span. -/
def VC6 : Vars := [(S "A", S "$(x")]

/-- String for the C6 counterexample: one known and one unknown reference,
and no `$(` span of its own. -/
def sC6 : Str := S "${A}${U}"

/-- Mapping for the C7 witness. -/
def VC7 : Vars := [(S "A", S "hello")]

/-- Mapping for the C10 counterexample: substituting `A` closes the paren. -/
def VC10 : Vars := [(S "A", S ")")]

/-- String for the C10 counterexample: contains `$(` and no `)` at all. -/
def sC10 : Str := S "$(${A}"

/-- Shell for the C10 counterexample: the empty command succeeds with empty
output (as `sp.check_output('', shell=True)` does). -/
def shellC10 : Str → Option Str := fun c => if c == ([] : Str) then some [] else none

/-- A filesystem on which every path exists. -/
def fsAll : FS := { pexists := fun _ => true, mtime := fun _ => 0 }

/-- A rule-command shell on which every command succeeds. -/
def shellOk : Shell := fun _ _ fs => (0, fs)

/-- The raw config block of the repository's own
`test_execute_commands_changes_directory` test (tests/test_rule.py 560-577). -/
def cfgC1 : RuleConfig :=
  [(S "working-directory", .s (S "/custom")),
   (S "required-files", .l []),
   (S "expected-files", .l []),
   (S "commands", .l [S "echo test"])]

/-- A glob oracle (never consulted below: no argument is a pattern). -/
def globNone : Str → List Str := fun _ => []

/-- The rule the C1 test builds. -/
def rC1 : Rule := mkRule globNone (S "chdir_rule") cfgC1 [(S "PROJECT_DIR", S "/proj")] []

/-- Filesystem for the C2 witness: `in.txt` and `out.txt` exist with equal
modification times. -/
def fsC2 : FS := { pexists := fun f => f == S "in.txt" || f == S "out.txt", mtime := fun _ => 0 }

/-- Rule for the C2 witness. -/
def rC2 : Rule :=
  { name := S "r2", tags := [], required_files := [S "in.txt"],
    expected_files := [S "out.txt"], commands := [S "make"] }

/-- Shell for the C3 witness: command `a` succeeds, everything else fails. -/
def shellC3 : Shell := fun _ c fs => (if c == S "a" then 0 else 1, fs)

/-- Rule for the C3 witness. -/
def rC3 : Rule :=
  { name := S "r3", tags := [], required_files := [], expected_files := [],
    commands := [S "a", S "b", S "c"] }

/-- Filesystem for the C9 witness: only `out.txt` exists. -/
def fsC9 : FS := { pexists := fun f => f == S "out.txt", mtime := fun _ => 5 }

/-- Rule for the C9 witness: no required files, one existing expected file. -/
def rC9 : Rule :=
  { name := S "r9", tags := [], required_files := [],
    expected_files := [S "out.txt"], commands := [S "x"] }

/-- Project for the C4 counterexample: a local variable whose key contains a
dot (exactly what `__load_config_file` produces for foreign-manifest imports),
and no imports. -/
def pC4 : Project := .mk [(S "a.b", S "v")] [] []

/-- A rule that only carries a name (for the C8 selection examples). -/
def ruleNamed (n : String) : Rule :=
  { name := S n, tags := [], required_files := [], expected_files := [], commands := [] }

/-- Project with rules `build`, `buildx`, `test` (spec §8 example). -/
def pC8 : Project :=
  .mk [] [(S "build", ruleNamed "build"), (S "buildx", ruleNamed "buildx"),
          (S "test", ruleNamed "test")] []

/-- Nested-import project: alias `sub` exposes rule `inner` and, through its
own import `deep`, rule `deep.bottom`. -/
def pC8sub : Project :=
  .mk [] [(S "inner", ruleNamed "inner")] [(S "deep", .mk [] [(S "bottom", ruleNamed "bottom")] [])]

/-- Top-level project importing `pC8sub` under alias `sub`. -/
def pC8top : Project := .mk [] [] [(S "sub", pC8sub)]

/-! ## Dictionary lemmas -/

theorem optOr_none_right {α : Type} (a : Option α) : optOr a none = a := by
  cases a <;> rfl

theorem optOr_some {α : Type} (x : α) (b : Option α) : optOr (some x) b = some x := rfl

theorem alookup_cons {α : Type} (a : Str) (b : α) (tl : List (Str × α)) (k : Str) :
    alookup ((a, b) :: tl) k = if a = k then some b else alookup tl k := by
  simp only [alookup, beq_iff_eq]

theorem containsKey_iff {α : Type} (d : List (Str × α)) (k : Str) :
    containsKey d k = true ↔ ∃ p ∈ d, p.1 = k := by
  simp only [containsKey, List.any_eq_true, beq_iff_eq]

theorem alookup_append {α : Type} (d e : List (Str × α)) (k : Str) :
    alookup (d ++ e) k = optOr (alookup d k) (alookup e k) := by
  induction d with
  | nil => rfl
  | cons hd tl ih =>
    obtain ⟨a, b⟩ := hd
    rw [List.cons_append, alookup_cons, alookup_cons]
    by_cases hc : a = k
    · rw [if_pos hc, if_pos hc, optOr_some]
    · rw [if_neg hc, if_neg hc, ih]

theorem alookup_none_of_not_contains {α : Type} {d : List (Str × α)} {k : Str}
    (h : containsKey d k = false) : alookup d k = none := by
  induction d with
  | nil => rfl
  | cons hd tl ih =>
    obtain ⟨a, b⟩ := hd
    have h2 : ¬ ∃ p ∈ (a, b) :: tl, p.1 = k := by
      rw [← containsKey_iff, h]
      simp
    rw [alookup_cons, if_neg (fun hak => h2 ⟨(a, b), List.mem_cons_self _ _, hak⟩)]
    refine ih ?_
    rw [Bool.eq_false_iff]
    intro hcon
    obtain ⟨p, hp, hpk⟩ := (containsKey_iff tl k).mp hcon
    exact h2 ⟨p, List.mem_cons_of_mem _ hp, hpk⟩

theorem alookup_map_override_ne {α : Type} {d : List (Str × α)} {kk k : Str} {v : α}
    (h : k ≠ kk) :
    alookup (d.map (fun p => if p.1 == kk then (kk, v) else p)) k = alookup d k := by
  induction d with
  | nil => rfl
  | cons hd tl ih =>
    obtain ⟨a, b⟩ := hd
    rw [List.map_cons]
    by_cases ha : a = kk
    · have hbeq : (((a, b) : Str × α).1 == kk) = true := by simpa [beq_iff_eq] using ha
      rw [if_pos hbeq, alookup_cons, alookup_cons,
        if_neg (fun hc : kk = k => h hc.symm), if_neg (fun hc : a = k => h (ha ▸ hc).symm), ih]
    · have hbeq : (((a, b) : Str × α).1 == kk) = false := by simpa [beq_iff_eq] using ha
      rw [if_neg (by simp [hbeq]), alookup_cons, alookup_cons]
      by_cases hak : a = k
      · rw [if_pos hak, if_pos hak]
      · rw [if_neg hak, if_neg hak, ih]

theorem alookup_map_override_eq {α : Type} {d : List (Str × α)} {kk : Str} {v : α}
    (h : containsKey d kk = true) :
    alookup (d.map (fun p => if p.1 == kk then (kk, v) else p)) kk = some v := by
  induction d with
  | nil => simp [containsKey] at h
  | cons hd tl ih =>
    obtain ⟨a, b⟩ := hd
    rw [List.map_cons]
    by_cases ha : a = kk
    · have hbeq : (((a, b) : Str × α).1 == kk) = true := by simpa [beq_iff_eq] using ha
      rw [if_pos hbeq, alookup_cons, if_pos rfl]
    · have hbeq : (((a, b) : Str × α).1 == kk) = false := by simpa [beq_iff_eq] using ha
      rw [if_neg (by simp [hbeq]), alookup_cons, if_neg ha]
      refine ih ?_
      obtain ⟨p, hp, hpk⟩ := (containsKey_iff _ kk).mp h
      rcases List.mem_cons.mp hp with hph | hpt
      · exact absurd (by rw [hph] at hpk; exact hpk) ha
      · exact (containsKey_iff tl kk).mpr ⟨p, hpt, hpk⟩

theorem alookup_updateOne {α : Type} (d : List (Str × α)) (kk : Str) (v : α) (k : Str) :
    alookup (updateOne d kk v) k = if kk = k then some v else alookup d k := by
  unfold updateOne
  by_cases hc : containsKey d kk = true
  · rw [if_pos hc]
    by_cases hkq : kk = k
    · subst hkq
      rw [if_pos rfl, alookup_map_override_eq hc]
    · rw [if_neg hkq, alookup_map_override_ne (fun hc2 => hkq hc2.symm)]
  · rw [if_neg hc, alookup_append]
    have hc2 : containsKey d kk = false := Bool.eq_false_iff.mpr hc
    by_cases hkq : kk = k
    · subst hkq
      rw [alookup_none_of_not_contains hc2, alookup_cons]
      simp [optOr]
    · rw [alookup_cons, if_neg hkq, if_neg hkq]
      exact optOr_none_right _

theorem alookup_dictUpdate {α : Type} (e d : List (Str × α)) (k : Str) :
    alookup (dictUpdate d e) k = optOr (alookup e.reverse k) (alookup d k) := by
  induction e generalizing d with
  | nil => rfl
  | cons p tl ih =>
    obtain ⟨a, b⟩ := p
    show alookup (dictUpdate (updateOne d a b) tl) k = _
    rw [ih (updateOne d a b), List.reverse_cons, alookup_append, alookup_updateOne,
      alookup_cons]
    cases hA : alookup tl.reverse k
    · by_cases hc : a = k
      · rw [if_pos hc, if_pos hc]
        rfl
      · rw [if_neg hc, if_neg hc]
        rfl
    · rfl

theorem alookup_reverse_of_nodup {α : Type} {e : List (Str × α)} (h : keysNodup e) (k : Str) :
    alookup e.reverse k = alookup e k := by
  induction e with
  | nil => rfl
  | cons p tl ih =>
    obtain ⟨a, b⟩ := p
    have h3 : (a :: tl.map Prod.fst).Nodup := by
      have h4 := h
      unfold keysNodup at h4
      rwa [List.map_cons] at h4
    have h2 : a ∉ tl.map Prod.fst ∧ keysNodup tl :=
      ⟨(List.nodup_cons.mp h3).1, (List.nodup_cons.mp h3).2⟩
    rw [List.reverse_cons, alookup_append, ih h2.2, alookup_cons]
    by_cases hc : a = k
    · subst hc
      have hnc : containsKey tl a = false := by
        rw [Bool.eq_false_iff]
        intro hcon
        obtain ⟨q, hq, hqk⟩ := (containsKey_iff tl a).mp hcon
        exact h2.1 (hqk ▸ List.mem_map_of_mem Prod.fst hq)
      rw [if_pos rfl, alookup_none_of_not_contains hnc, alookup_cons, if_pos rfl]
      rfl
    · rw [if_neg hc, alookup_cons, if_neg hc]
      exact optOr_none_right _

/-- C5: at `Project` construction, a key's merged value is taken in strict
priority order: command-line overrides win, then built-ins, then the
config-declared `vars:` block, then (below all three) the variables flattened
out of foreign-manifest imports — each later `update` layer overwriting
same-named keys of the earlier ones (project.py 35, 58-60). -/
theorem C5_variable_layer_priority (importVars configVars builtins clVars : Vars) (k : Str)
    (hc : keysNodup configVars) (hb : keysNodup builtins) (hcl : keysNodup clVars) :
    alookup (mergedVars importVars configVars builtins clVars) k =
      optOr (alookup clVars k)
        (optOr (alookup builtins k)
          (optOr (alookup configVars k) (alookup importVars k))) := by
  unfold mergedVars
  rw [alookup_dictUpdate, alookup_reverse_of_nodup hcl,
    alookup_dictUpdate, alookup_reverse_of_nodup hb,
    alookup_dictUpdate, alookup_reverse_of_nodup hc]

/-- C5 witness: the key `X` is defined in all four layers and resolves to the
command-line value; `Y` is defined only in the built-ins layer. -/
theorem C5_variable_layer_priority_witness :
    alookup (mergedVars [(S "X", S "i")] [(S "X", S "c")]
        [(S "X", S "b"), (S "Y", S "b2")] [(S "X", S "cl")]) (S "X") =
      optOr (alookup [(S "X", S "cl")] (S "X"))
        (optOr (alookup [(S "X", S "b"), (S "Y", S "b2")] (S "X"))
          (optOr (alookup [(S "X", S "c")] (S "X")) (alookup [(S "X", S "i")] (S "X")))) :=
  C5_variable_layer_priority [(S "X", S "i")] [(S "X", S "c")]
    [(S "X", S "b"), (S "Y", S "b2")] [(S "X", S "cl")] (S "X")
    (by decide) (by decide) (by decide)

/-! ## Resolution lemmas -/

theorem substPass_id {V : Vars} {s : Str}
    (h : ∀ p ∈ V, containsSub (varPat p.1) s = false) : substPass V s = s := by
  unfold substPass
  induction V with
  | nil => rfl
  | cons p tl ih =>
    rw [List.foldl_cons]
    have h0 : containsSub (varPat p.1) s = false := h p (List.mem_cons_self _ _)
    have h1 : (if containsSub (varPat p.1) s then replaceAll (varPat p.1) p.2 s else s) = s := by
      rw [h0]
      simp
    rw [h1]
    exact ih (fun q hq => h q (List.mem_cons_of_mem _ hq))

theorem findSub_none {pat s : Str} (h : containsSub pat s = false) : findSub pat s = none := by
  induction s with
  | nil =>
    unfold containsSub at h
    simp [findSub, h]
  | cons c cs ih =>
    unfold containsSub at h
    rcases Bool.or_eq_false_iff.mp h with ⟨h1, h2⟩
    simp [findSub, h1, ih h2]

theorem beq_nil_false {s : Str} (h : s ≠ []) : (([] : Str) == s) = false := by
  cases s with
  | nil => exact absurd rfl h
  | cons c cs => rfl

theorem expandCmds_no_span {shell : Str → Option Str} {iF : Nat} {s : Str}
    (h : containsSub dParen s = false) : expandCmds shell iF s = some (.ok s) := by
  rw [expandCmds, findSub_none h]

/-- Any terminating successful run of the outer loop either exited immediately
(`last == value`) or ended at a string on which one more full pass
(substitution followed by command expansion) is the identity. -/
theorem resolveLoop_ok_fix (shell : Str → Option Str) (V : Vars) (iF : Nat) :
    ∀ oF last value out, resolveLoop shell V iF oF last value = some (.ok out) →
      (last = value ∧ out = value) ∨
        expandCmds shell iF (substPass V out) = some (.ok out) := by
  intro oF
  induction oF with
  | zero =>
    intro last value out h
    rw [resolveLoop.eq_def] at h
    by_cases hb : (last == value) = true
    · rw [if_pos hb] at h
      have hv : value = out := by
        simpa using h
      exact Or.inl ⟨by simpa [beq_iff_eq] using hb, hv.symm⟩
    · rw [if_neg hb] at h
      exact absurd h (by simp)
  | succ n ih =>
    intro last value out h
    rw [resolveLoop.eq_def] at h
    by_cases hb : (last == value) = true
    · rw [if_pos hb] at h
      have hv : value = out := by
        simpa using h
      exact Or.inl ⟨by simpa [beq_iff_eq] using hb, hv.symm⟩
    · rw [if_neg hb] at h
      cases hE : expandCmds shell iF (substPass V value) with
      | none => rw [hE] at h; exact absurd h (by simp)
      | some r =>
        cases r with
        | error e => rw [hE] at h; exact absurd h (by simp)
        | ok v2 =>
          rw [hE] at h
          rcases ih value v2 out h with ⟨hveq, hout⟩ | hfix
          · subst hout
            subst hveq
            exact Or.inr hE
          · exact Or.inr hfix

/-- C7: for every variable mapping and every string on which resolution
terminates, re-running `__resolve_variable_value` on its own output (same
mapping, same shell) returns the identical string — the output is a fixed
point of resolution. -/
theorem C7_resolution_idempotent (shell : Str → Option Str) (V : Vars) (oF iF : Nat)
    (s out : Str) (h : resolveValue shell V oF iF s = some (.ok out)) :
    resolveValue shell V oF iF out = some (.ok out) := by
  unfold resolveValue at h ⊢
  rcases resolveLoop_ok_fix shell V iF oF [] s out h with ⟨hl, ho⟩ | hfix
  · rw [← hl] at ho
    subst ho
    rw [resolveLoop.eq_def]
    rfl
  · by_cases hout : out = []
    · subst hout
      rw [resolveLoop.eq_def]
      rfl
    · have hs : s ≠ [] := by
        intro hs0
        subst hs0
        rw [resolveLoop.eq_def] at h
        have : out = [] := by simpa using h
        exact hout this
      cases oF with
      | zero =>
        exfalso
        rw [resolveLoop.eq_def, if_neg (by rw [beq_nil_false hs]; simp)] at h
        exact absurd h (by simp)
      | succ n =>
        rw [resolveLoop.eq_def, if_neg (by rw [beq_nil_false hout]; simp), hfix]
        show resolveLoop shell V iF n out out = some (Except.ok out)
        rw [resolveLoop.eq_def, if_pos (beq_self_eq_true _)]

/-- C7 witness: `"${A}"` resolves to `"hello"` under `{A: "hello"}`, and
resolving `"hello"` again returns `"hello"` by the theorem. -/
theorem C7_resolution_idempotent_witness :
    resolveValue shellNone VC7 3 3 (S "hello") = some (.ok (S "hello")) :=
  C7_resolution_idempotent shellNone VC7 3 3 (S "${A}") (S "hello") (by decide)

/-- C6 (amended): if no known variable reference `${K}` (`K` a key of `V`)
occurs in `s` and `s` contains no `'$('`, then resolution terminates on `s`
unchanged: an unknown reference `${UNKNOWN}` is left verbatim in the output
and no error is raised. -/
theorem C6_unknown_reference_amended (shell : Str → Option Str) (V : Vars) (oF iF : Nat)
    (s U : Str)
    (hU : alookup V U = none)
    (hocc : containsSub (varPat U) s = true)
    (hnoref : ∀ p ∈ V, containsSub (varPat p.1) s = false)
    (hnocmd : containsSub dParen s = false)
    (hoF : 1 ≤ oF) :
    ∃ r, resolveValue shell V oF iF s = some (Except.ok r) ∧
      containsSub (varPat U) r = true := by
  have hs : s ≠ [] := by
    intro h0
    subst h0
    simp [containsSub, varPat, isPrefixB] at hocc
  cases oF with
  | zero => omega
  | succ n =>
    refine ⟨s, ?_, hocc⟩
    unfold resolveValue
    rw [resolveLoop.eq_def, if_neg (by rw [beq_nil_false hs]; simp), substPass_id hnoref,
      expandCmds_no_span hnocmd]
    show resolveLoop shell V iF n s s = some (Except.ok s)
    rw [resolveLoop.eq_def, if_pos (beq_self_eq_true _)]

/-- C6 witness (for the amended statement): `"x${U}y"` under `{A: "hello"}`
resolves to itself with `${U}` intact. -/
theorem C6_unknown_reference_amended_witness :
    ∃ r, resolveValue shellNone [(S "A", S "hello")] 1 1 (S "x${U}y") = some (Except.ok r) ∧
      containsSub (varPat (S "U")) r = true :=
  C6_unknown_reference_amended shellNone [(S "A", S "hello")] 1 1 (S "x${U}y") (S "U")
    (by decide) (by decide) (by decide) (by decide) (by decide)

/-- C6 counterexample: `U` is not a key of `VC6`, `sC6 = "${A}${U}"` contains
`${U}` and no `'$('` span of its own, yet resolution raises an uncaught
`ValueError` (unclosed paren), because the substituted value of `A` introduces
`'$('` — refuting the claim's "does not raise an error". -/
theorem C6_counterexample :
    alookup VC6 (S "U") = none
    ∧ containsSub (varPat (S "U")) sC6 = true
    ∧ containsSub dParen sC6 = false
    ∧ resolveValue shellNone VC6 3 3 sC6
        = some (.error (.unclosedParen (S "$(x${U}"))) := by
  decide

/-- C10 (amended): when the substitution pass leaves the string unchanged (for
instance because no `${K}` with `K` a key of `V` occurs in it) and the first
`'$('` has no `')'` at or after it, resolution raises the uncaught
`ValueError` from `value.index(')', start_idx)`. -/
theorem C10_unclosed_paren_amended (shell : Str → Option Str) (V : Vars) (s : Str)
    (i oF iF : Nat)
    (hsub : substPass V s = s)
    (hfind : findSub dParen s = some i)
    (hclose : indexFrom closeParen s i = none)
    (hoF : 1 ≤ oF) (hiF : 1 ≤ iF) :
    resolveValue shell V oF iF s = some (.error (.unclosedParen s)) := by
  have hs : s ≠ [] := by
    intro h0
    subst h0
    simp [findSub, isPrefixB, dParen] at hfind
  cases oF with
  | zero => omega
  | succ n =>
    cases iF with
    | zero => omega
    | succ m =>
      unfold resolveValue
      rw [resolveLoop.eq_def, if_neg (by rw [beq_nil_false hs]; simp), hsub]
      have hE : expandCmds shell (m + 1) s = some (.error (.unclosedParen s)) := by
        rw [expandCmds, hfind]
        simp only [hclose]
      rw [hE]

/-- C10 amended witness: `"$(a"` with an empty mapping. -/
theorem C10_unclosed_paren_amended_witness :
    resolveValue shellNone [] 1 1 (S "$(a") = some (.error (.unclosedParen (S "$(a"))) :=
  C10_unclosed_paren_amended shellNone [] (S "$(a") 0 1 1
    (by decide) (by decide) (by decide) (by decide) (by decide)

/-- C10 counterexample: `sC10 = "$(${A}"` contains `'$('` with no `')'`
anywhere at or after it, yet with `{A: ")"}` resolution completes without any
error (the substituted value closes the paren and the resulting empty command
succeeds) — refuting the claim's unconditional `ValueError`. -/
theorem C10_counterexample :
    containsSub dParen sC10 = true
    ∧ findSub closeParen sC10 = none
    ∧ resolveValue shellC10 VC10 2 1 sC10 = some (.ok ([] : Str)) := by
  decide

/-! ## Rule execution lemmas -/

theorem reachedRun_runPhase (shell : Shell) (cwd : Str) (fs : FS) (r : Rule) :
    reachedRun (runPhase shell cwd fs r).1 = true := by
  unfold runPhase
  cases hf : (execCommands shell cwd fs r.commands).2.2 with
  | none =>
    by_cases he : filesAllExist (execCommands shell cwd fs r.commands).2.1 r.expected_files = true
    · simp [hf, he, reachedRun]
    · simp [hf, he, reachedRun]
  | some c => simp [hf, reachedRun]

theorem lastEdited_nil (fs : FS) : lastEdited fs [] = none := rfl

/-- `__must_be_rerun` answers `True` exactly when: the expected list is empty,
or some expected file is missing, or both maxima exist and the required
maximum is strictly greater. -/
theorem must_be_rerun_true_iff (fs : FS) (r : Rule) :
    must_be_rerun fs r = some true ↔
      (r.expected_files = [] ∨ r.expected_files.all fs.pexists = false ∨
        ∃ lr le, lastEdited fs r.required_files = some lr ∧
          lastEdited fs r.expected_files = some le ∧ le < lr) := by
  unfold must_be_rerun
  by_cases hg : (r.expected_files.isEmpty || !(r.expected_files.all fs.pexists)) = true
  · rw [if_pos hg]
    simp only [Bool.or_eq_true, List.isEmpty_iff, Bool.not_eq_true'] at hg
    constructor
    · intro _
      rcases hg with h1 | h2
      · exact Or.inl h1
      · exact Or.inr (Or.inl h2)
    · intro _
      rfl
  · rw [if_neg hg]
    simp only [Bool.or_eq_true, List.isEmpty_iff, Bool.not_eq_true', not_or] at hg
    obtain ⟨hne, hall⟩ := hg
    have hall2 : r.expected_files.all fs.pexists = true := by
      cases hb : r.expected_files.all fs.pexists with
      | false => exact absurd hb hall
      | true => rfl
    constructor
    · intro hL
      cases hmr : lastEdited fs r.required_files with
      | none => rw [hmr] at hL; exact absurd hL (by simp)
      | some lr =>
        cases hme : lastEdited fs r.expected_files with
        | none => rw [hmr, hme] at hL; exact absurd hL (by simp)
        | some le =>
          rw [hmr, hme] at hL
          have hdec : le < lr := by simpa using hL
          exact Or.inr (Or.inr ⟨lr, le, rfl, rfl, hdec⟩)
    · intro hd
      rcases hd with h1 | h2 | ⟨lr2, le2, he1, he2, hlt⟩
      · exact absurd h1 hne
      · rw [hall2] at h2
        exact absurd h2 (by simp)
      · rw [he1, he2]
        simpa using hlt

/-- C2: with all required files present and `force` unset, the rule's Run
phase is reached iff the expected list is empty, or some expected file is
absent, or max required mtime strictly exceeds max expected mtime; and when
the two maxima are equal (all expected files present), `execute` skips without
running any command. -/
theorem C2_staleness_decision (shell : Shell) (cwd : Str) (fs : FS) (r : Rule)
    (hreq : filesAllExist fs r.required_files = true) :
    (reachedRun (Rule.execute shell cwd fs r false).1 = true ↔
      (r.expected_files = [] ∨ r.expected_files.all fs.pexists = false ∨
        ∃ lr le, lastEdited fs r.required_files = some lr ∧
          lastEdited fs r.expected_files = some le ∧ le < lr))
    ∧ (∀ m, lastEdited fs r.required_files = some m →
        lastEdited fs r.expected_files = some m →
        r.expected_files.all fs.pexists = true →
        (Rule.execute shell cwd fs r false).1 = ExecResult.skipped) := by
  constructor
  · rw [← must_be_rerun_true_iff fs r]
    unfold Rule.execute
    rw [hreq]
    simp only [Bool.not_true, Bool.false_eq_true, if_false]
    cases hmr : must_be_rerun fs r with
    | none => simp [reachedRun, hmr]
    | some b =>
      cases b with
      | false => simp [reachedRun, hmr]
      | true => simp [reachedRun_runPhase, hmr]
  · intro m hmr hme hall
    have hne : r.expected_files ≠ [] := by
      intro h0
      rw [h0, lastEdited_nil] at hme
      exact Option.noConfusion hme
    have hmb : must_be_rerun fs r = some false := by
      unfold must_be_rerun
      rw [if_neg (by simp [List.isEmpty_iff, hne, hall]), hmr, hme]
      simp
    unfold Rule.execute
    rw [hreq]
    simp [hmb]

/-- C2 witness: `in.txt` (required) and `out.txt` (expected) both exist with
equal mtimes, so the rule is skipped. -/
theorem C2_staleness_decision_witness :
    (Rule.execute shellOk (S "/w") fsC2 rC2 false).1 = ExecResult.skipped :=
  (C2_staleness_decision shellOk (S "/w") fsC2 rC2 (by decide)).2 0
    (by decide) (by decide) (by decide)

theorem execCommands_ok_trace {shell : Shell} {cwd : Str} {fs : FS} {cmds : List Str}
    {inv : List (Str × Str)} {fs2 : FS}
    (h : execCommands shell cwd fs cmds = (inv, fs2, none)) :
    inv = cmds.map (fun c => (cwd, c)) := by
  induction cmds generalizing fs inv with
  | nil =>
    simp only [execCommands, Prod.mk.injEq] at h
    rw [← h.1]
    rfl
  | cons c tl ih =>
    simp only [execCommands] at h
    by_cases hz : ((shell cwd c fs).1 == 0) = true
    · rw [if_pos hz] at h
      rw [Prod.mk.injEq, Prod.mk.injEq] at h
      obtain ⟨h1, h2, h3⟩ := h
      have hX : execCommands shell cwd (shell cwd c fs).2 tl =
          ((execCommands shell cwd (shell cwd c fs).2 tl).1, fs2, none) := by
        rw [← h2, ← h3]
      rw [← h1, List.map_cons, ih hX]
    · rw [if_neg hz, Prod.mk.injEq, Prod.mk.injEq] at h
      exact absurd h.2.2 (by simp)

theorem execCommands_append_fail {shell : Shell} {cwd : Str} {fs : FS} {pre : List Str}
    {inv1 : List (Str × Str)} {fs1 : FS}
    (hpre : execCommands shell cwd fs pre = (inv1, fs1, none))
    {c : Str} (post : List Str) (hc : (shell cwd c fs1).1 ≠ 0) :
    execCommands shell cwd fs (pre ++ c :: post) =
      (inv1 ++ [(cwd, c)], (shell cwd c fs1).2, some c) := by
  induction pre generalizing fs inv1 with
  | nil =>
    simp only [execCommands, Prod.mk.injEq] at hpre
    obtain ⟨h1, h2, _⟩ := hpre
    subst h1
    subst h2
    rw [List.nil_append]
    simp only [execCommands]
    rw [if_neg (by simpa using hc)]
    rfl
  | cons a tl ih =>
    simp only [execCommands] at hpre
    by_cases hz : ((shell cwd a fs).1 == 0) = true
    · rw [if_pos hz] at hpre
      rw [Prod.mk.injEq, Prod.mk.injEq] at hpre
      obtain ⟨h1, h2, h3⟩ := hpre
      have hpre2 : execCommands shell cwd (shell cwd a fs).2 tl =
          ((execCommands shell cwd (shell cwd a fs).2 tl).1, fs1, none) := by
        rw [← h2, ← h3]
      rw [List.cons_append]
      simp only [execCommands]
      rw [if_pos hz, ih hpre2, ← h1]
      rfl
    · rw [if_neg hz, Prod.mk.injEq, Prod.mk.injEq] at hpre
      exact absurd hpre.2.2 (by simp)

/-- C3: when a rule reaches the Run phase, the commands before the first
failing one run in declared order, the failing command raises the wrapping
`RuntimeError`, and no later command of the list runs — nor is the
expected-files check evaluated (the outcome is `commandFailed`, not
`success`/`expectedMissing`). -/
theorem C3_command_order_and_abort (shell : Shell) (cwd : Str) (fs : FS) (r : Rule)
    (force : Bool) (pre : List Str) (c : Str) (post : List Str)
    (inv1 : List (Str × Str)) (fs1 : FS)
    (hcmds : r.commands = pre ++ c :: post)
    (hpre : execCommands shell cwd fs pre = (inv1, fs1, none))
    (hc : (shell cwd c fs1).1 ≠ 0)
    (hreq : filesAllExist fs r.required_files = true)
    (hrun : force = true ∨ must_be_rerun fs r = some true) :
    (Rule.execute shell cwd fs r force).1 =
      ExecResult.commandFailed (pre.map (fun x => (cwd, x)) ++ [(cwd, c)]) c := by
  have htr : inv1 = pre.map (fun x => (cwd, x)) := execCommands_ok_trace hpre
  have hrp : (runPhase shell cwd fs r).1 =
      ExecResult.commandFailed (pre.map (fun x => (cwd, x)) ++ [(cwd, c)]) c := by
    unfold runPhase
    rw [hcmds, execCommands_append_fail hpre post hc, htr]
  unfold Rule.execute
  rw [hreq]
  simp only [Bool.not_true, Bool.false_eq_true, if_false]
  rcases hrun with hf | hm
  · rw [hf]
    simp [hrp]
  · cases force
    · simp [hm, hrp]
    · simp [hrp]

/-- C3 witness: commands `a; b; c` where `b` fails — only `a` and `b` are
invoked, in order, and the outcome is `commandFailed`. -/
theorem C3_command_order_and_abort_witness :
    (Rule.execute shellC3 (S "/w") fsAll rC3 false).1 =
      ExecResult.commandFailed
        ([S "a"].map (fun x => (S "/w", x)) ++ [(S "/w", S "b")]) (S "b") :=
  C3_command_order_and_abort shellC3 (S "/w") fsAll rC3 false [S "a"] (S "b") [S "c"]
    [(S "/w", S "a")] fsAll (by decide) (by rfl) (by decide) (by decide)
    (Or.inr (by decide))

/-- C9: a rule with no required files but a non-empty expected-files list
whose files all exist makes `execute(force=False)` hit the uncaught
`ValueError` from `max()` over the empty required-mtimes sequence, instead of
reaching a skip-or-run decision. -/
theorem C9_empty_required_value_error (shell : Shell) (cwd : Str) (fs : FS) (r : Rule)
    (hreq : r.required_files = [])
    (hexp : r.expected_files ≠ [])
    (hall : r.expected_files.all fs.pexists = true) :
    (Rule.execute shell cwd fs r false).1 = ExecResult.emptyMaxError := by
  have hmb : must_be_rerun fs r = none := by
    unfold must_be_rerun
    rw [if_neg (by simp [List.isEmpty_iff, hexp, hall]), hreq, lastEdited_nil]
  unfold Rule.execute
  rw [hreq]
  simp only [filesAllExist, List.all_nil, Bool.not_true, Bool.false_eq_true, if_false]
  simp [hmb]

/-- C9 witness. -/
theorem C9_empty_required_value_error_witness :
    (Rule.execute shellOk (S "/w") fsC9 rC9 false).1 = ExecResult.emptyMaxError :=
  C9_empty_required_value_error shellOk (S "/w") fsC9 rC9 (by decide) (by decide) (by decide)

/-! ## C1: working-directory scoping -/

theorem execCommands_cwd_const (shell : Shell) (cwd : Str) (fs : FS) (cmds : List Str) :
    ((execCommands shell cwd fs cmds).1.all (fun pc => pc.1 == cwd)) = true := by
  induction cmds generalizing fs with
  | nil => rfl
  | cons c tl ih =>
    unfold execCommands
    by_cases hz : ((shell cwd c fs).1 == 0) = true
    · rw [if_pos hz]
      simp [ih]
    · rw [if_neg hz]
      simp

theorem runPhase_cwd (shell : Shell) (cwd : Str) (fs : FS) (r : Rule) :
    (runPhase shell cwd fs r).2.2 = cwd := by
  unfold runPhase
  cases hf : (execCommands shell cwd fs r.commands).2.2 with
  | none =>
    by_cases he : filesAllExist (execCommands shell cwd fs r.commands).2.1 r.expected_files = true
    · simp [hf, he]
    · simp [hf, he]
  | some c => simp [hf]

theorem execute_cwd_unchanged (shell : Shell) (cwd : Str) (fs : FS) (r : Rule)
    (force : Bool) : (Rule.execute shell cwd fs r force).2.2 = cwd := by
  unfold Rule.execute
  by_cases h1 : (!filesAllExist fs r.required_files) = true
  · rw [if_pos h1]
  · rw [if_neg h1]
    cases force with
    | true => simp [runPhase_cwd]
    | false =>
      simp only [Bool.false_eq_true, if_false]
      cases hm : must_be_rerun fs r with
      | none => rfl
      | some b =>
        cases b with
        | false => rfl
        | true => simp [runPhase_cwd]

/-- C1: contrary to the claim (and to the repository's own tests),
`Rule.execute` never changes the process working directory at all: the final
cwd always equals the initial cwd because no `chdir` ever happens, every
command is spawned in the caller's cwd, `Rule.__init__` sets no
`working_directory` attribute, and on the config of the repository's
`test_execute_commands_changes_directory` test the single command runs in the
original cwd `"/orig"`, not in the configured `"/custom"`. -/
theorem C1_no_working_directory_scoping :
    (∀ (shell : Shell) (cwd : Str) (fs : FS) (r : Rule) (force : Bool),
        (Rule.execute shell cwd fs r force).2.2 = cwd)
    ∧ (∀ (shell : Shell) (cwd : Str) (fs : FS) (cmds : List Str),
        ((execCommands shell cwd fs cmds).1.all (fun pc => pc.1 == cwd)) = true)
    ∧ rC1 = { name := S "chdir_rule", tags := [], required_files := [],
              expected_files := [], commands := [S "echo test"] }
    ∧ (Rule.execute shellOk (S "/orig") fsAll rC1 false).1 =
        ExecResult.success [(S "/orig", S "echo test")] := by
  refine ⟨execute_cwd_unchanged, execCommands_cwd_const, ?_, ?_⟩
  · decide
  · decide

/-! ## C4: qualified-name lookup -/

theorem gvImports_eq (l : List (Str × Project)) (alias_ rest : Str) :
    gvImports l alias_ rest =
      (match alookup l alias_ with
       | some child => Project.get_var child rest
       | none => Except.error LookupErr.importNotFound) := by
  induction l with
  | nil => rfl
  | cons hd tl ih =>
    obtain ⟨k, child⟩ := hd
    show (if (k == alias_) = true then Project.get_var child rest else gvImports tl alias_ rest) = _
    by_cases hc : (k == alias_) = true
    · rw [if_pos hc]
      show _ = (match (if (k == alias_) = true then some child else alookup tl alias_) with
        | some child => Project.get_var child rest
        | none => Except.error LookupErr.importNotFound)
      rw [if_pos hc]
    · rw [if_neg hc, ih]
      show _ = (match (if (k == alias_) = true then some child else alookup tl alias_) with
        | some child => Project.get_var child rest
        | none => Except.error LookupErr.importNotFound)
      rw [if_neg hc]

/-- C4 (amended): `get_var` treats the first dot-separated segment of a dotted
name as an import alias unconditionally: it recurses into the child project
when the alias is a known import and otherwise raises
`KeyError('Import not found')` — even when the whole dotted string is a key of
the local variable mapping.  Only dot-free names are looked up locally. -/
theorem C4_get_var_lookup_policy (p : Project) (name : Str) :
    (findSub ['.'] name = none →
      Project.get_var p name =
        (match alookup p.vars name with
         | some v => Except.ok v
         | none => Except.error LookupErr.varNotFound))
    ∧ (∀ i, findSub ['.'] name = some i →
        alookup p.imports (name.take i) = none →
        Project.get_var p name = Except.error LookupErr.importNotFound)
    ∧ (∀ i child, findSub ['.'] name = some i →
        alookup p.imports (name.take i) = some child →
        Project.get_var p name = Project.get_var child (name.drop (i + 1))) := by
  cases p with
  | mk vars rules imports =>
    refine ⟨?_, ?_, ?_⟩
    · intro hf
      have hs : splitDot1 name = (name, none) := by
        unfold splitDot1
        rw [hf]
      show (match splitDot1 name with
        | (_, none) =>
          match alookup vars name with
          | some v => Except.ok v
          | none => Except.error LookupErr.varNotFound
        | (alias_, some rest) => gvImports imports alias_ rest) = _
      rw [hs]
      rfl
    · intro i hf himp
      have hs : splitDot1 name = (name.take i, some (name.drop (i + 1))) := by
        unfold splitDot1
        rw [hf]
      simp only [Project.imports] at himp
      show (match splitDot1 name with
        | (_, none) =>
          match alookup vars name with
          | some v => Except.ok v
          | none => Except.error LookupErr.varNotFound
        | (alias_, some rest) => gvImports imports alias_ rest) = _
      rw [hs]
      show gvImports imports (name.take i) (name.drop (i + 1)) = _
      rw [gvImports_eq, himp]
    · intro i child hf himp
      have hs : splitDot1 name = (name.take i, some (name.drop (i + 1))) := by
        unfold splitDot1
        rw [hf]
      simp only [Project.imports] at himp
      show (match splitDot1 name with
        | (_, none) =>
          match alookup vars name with
          | some v => Except.ok v
          | none => Except.error LookupErr.varNotFound
        | (alias_, some rest) => gvImports imports alias_ rest) = _
      rw [hs]
      show gvImports imports (name.take i) (name.drop (i + 1)) = _
      rw [gvImports_eq, himp]

/-- C4 amended witness: on `pC4` the dotted name `"a.b"` hits the branch
raising `KeyError('Import not found')`. -/
theorem C4_get_var_lookup_policy_witness :
    Project.get_var pC4 (S "a.b") = Except.error LookupErr.importNotFound :=
  (C4_get_var_lookup_policy pC4 (S "a.b")).2.1 1 (by decide) (by rfl)

/-- C4 counterexample: `"a.b"` is a key of the project's own variable mapping
(as produced by flattening a foreign manifest under alias `a`), the project
has no imports, and yet `get_var("a.b")` raises `KeyError('Import not found')`
instead of returning the local value `"v"` — refuting the claimed fallback to
whole-string local lookup. -/
theorem C4_counterexample :
    alookup (Project.vars pC4) (S "a.b") = some (S "v")
    ∧ Project.get_var pC4 (S "a.b") = Except.error LookupErr.importNotFound := by
  exact ⟨by decide, by decide⟩

/-! ## C8: rule selection -/

/-- C8: a rule of the transitive closure (`get_all_rules`, imported rules
keyed `alias.name`, recursively) is selected iff the pattern list is empty or
some pattern fully matches its key, and the tag list is empty or shares a tag
with the rule; with full-match semantics, selecting `["build"]` from
`{build, buildx, test}` yields exactly `{build}`, and a nested import's rule
is selected by its fully qualified key. -/
theorem C8_select_rules_semantics :
    (∀ (matchFn : Str → Str → Bool) (p : Project) (pats tags : List Str) (nr : Str × Rule),
      nr ∈ Project.select_rules matchFn p pats tags ↔
        (nr ∈ Project.get_all_rules p ∧
          (pats = [] ∨ ∃ pat ∈ pats, matchFn pat nr.1 = true) ∧
          (tags = [] ∨ ∃ t ∈ tags, t ∈ nr.2.tags)))
    ∧ Project.select_rules reFullmatchLit pC8 [S "build"] [] = [(S "build", ruleNamed "build")]
    ∧ Project.select_rules reFullmatchLit pC8top [S "sub.deep.bottom"] [] =
        [(S "sub.deep.bottom", ruleNamed "bottom")] := by
  refine ⟨?_, by decide, by decide⟩
  intro matchFn p pats tags nr
  unfold Project.select_rules
  rw [List.mem_filter]
  have hconv : ∀ (l : List Str) (t : Str), (l.contains t = true) ↔ t ∈ l :=
    fun l t => List.elem_iff
  simp only [Bool.and_eq_true, Bool.or_eq_true, List.any_eq_true, List.isEmpty_iff, hconv]

end Builder
